import Mathlib

/-!
Verification of the exec-rs library (a wrapper around the C library
execvp function) against its natural-language specification.

The embedding follows src/src/lib.rs.  Host strings (OsStr byte data on
unix) are modelled as `List Nat`; the null byte is the value 0.  The OS
process-replacement primitive (libc execvp) and the errno facility are
external to the library, so they are modelled as an oracle `OS` whose
fields give the primitive's return value and the errno state observed
right after it returns, both as functions of what the library hands to
the OS (the marshalled program buffer and the pointer array).  A pointer
to an owned buffer is modelled as `some buffer`; the null pointer
sentinel is `none`.
-/

namespace ExecRs

/-- The `Error` enum of the library: either a string contained an
internal null byte, or the system returned an error (errno code,
modelled as `Int` for the C `i32`). -/
inductive Error where
  | NullByteInArgument : Error
  | Errno : Int → Error
  deriving DecidableEq, Repr

/-- Oracle for the OS boundary: `execvpRes prog argv` is the return
value of the libc execvp call on the marshalled program string and
pointer array, and `errnoVal prog argv` is the errno state observable
immediately after that call returns. -/
structure OS where
  execvpRes : List Nat → List (Option (List Nat)) → Int
  errnoVal : List Nat → List (Option (List Nat)) → Int

/-- Observable outcome of one call to `execvp_impl`:
`returned e osCalled` means the function returned the error value `e`,
with `osCalled` recording whether the OS primitive was invoked before
returning; `execvpPanic` is the `should never happen` branch where the
primitive returned a non-negative value and the library aborts;
`indexPanic` models a Rust index-out-of-bounds abort (only reachable
from `Command.exec` on an empty argv, which the builder never makes). -/
inductive ExecOutcome where
  | returned : Error → Bool → ExecOutcome
  | execvpPanic : ExecOutcome
  | indexPanic : ExecOutcome
  deriving DecidableEq, Repr

/-- Model of `CString::new s`: fails iff the byte string contains a null byte
anywhere in its content; otherwise yields the content with exactly one
appended zero terminator. -/
def cstringNew (s : List Nat) : Option (List Nat) :=
  if s.contains 0 then none else some (s ++ [0])

/-- The `args.into_iter().map(CString::new).collect::<Result<Vec,_>>()`
step of `execvp_impl`: marshal each argument in order, short-circuiting
at the first string whose conversion fails (later strings are not
examined). -/
def marshalArgs : List (List Nat) → Option (List (List Nat))
  | [] => some []
  | a :: rest =>
    match cstringNew a with
    | none => none
    | some c => (marshalArgs rest).map (fun cs => c :: cs)

/-- The `arg_charptrs` construction: one pointer per marshalled buffer,
in input order, followed by the pushed null sentinel. -/
def argCharptrs (bufs : List (List Nat)) : List (Option (List Nat)) :=
  bufs.map some ++ [none]

/-- The unix `execvp_impl`: marshal the program name, then the
arguments (each step returning `NullByteInArgument` early on failure,
via the exec_try macro), build the pointer array, invoke the OS
primitive, and classify: a negative return wraps the captured errno as
`Errno`; any other return hits the library abort branch. -/
def execvp_impl (os : OS) (program : List Nat) (args : List (List Nat)) : ExecOutcome :=
  match cstringNew program with
  | none => ExecOutcome.returned Error.NullByteInArgument false
  | some program_cstring =>
    match marshalArgs args with
    | none => ExecOutcome.returned Error.NullByteInArgument false
    | some arg_cstrings =>
      let arg_charptrs := argCharptrs arg_cstrings
      let res := os.execvpRes program_cstring arg_charptrs
      if res < 0 then
        ExecOutcome.returned (Error.Errno (os.errnoVal program_cstring arg_charptrs)) true
      else
        ExecOutcome.execvpPanic

/-- The public `execvp` function, which just delegates to the
platform-selected `execvp_impl`. -/
def execvp (os : OS) (program : List Nat) (args : List (List Nat)) : ExecOutcome :=
  execvp_impl os program args

/-- Trace of the argument strings examined by the marshalling loop, in
order: the loop inspects arguments left to right and stops at (and
including) the first one containing a null byte, mirroring the
short-circuit of collecting Results from the iterator. -/
def validatedArgs : List (List Nat) → List (List Nat)
  | [] => []
  | a :: rest => if a.contains 0 then [a] else a :: validatedArgs rest

/-- Trace of every string examined by `execvp_impl`: the program name
is converted first; if it contains a null byte the exec_try macro
returns before the argument iterator is ever touched, otherwise the
arguments are examined in order up to the first offender. -/
def validatedStrings (program : List Nat) (args : List (List Nat)) : List (List Nat) :=
  if program.contains 0 then [program] else program :: validatedArgs args

/-- The `Command` builder: its whole state is the argv list (program
name followed by arguments, C argv style). -/
structure Command where
  argv : List (List Nat)
  deriving DecidableEq, Repr

/-- Model of `Command::new`: initialize argv with the single
program-name entry. -/
def Command.new (program : List Nat) : Command :=
  { argv := [program] }

/-- Model of `Command::arg`: push one argument onto argv; returns the
builder for chaining. -/
def Command.arg (c : Command) (a : List Nat) : Command :=
  { argv := c.argv ++ [a] }

/-- Model of `Command::args`: loop over the slice calling `arg` on each
element in order. -/
def Command.args (c : Command) (vs : List (List Nat)) : Command :=
  vs.foldl Command.arg c

/-- Model of `Command::exec`, whose body is
`execvp(&self.argv[0], &self.argv)`.  The Rust
indexing `self.argv[0]` aborts the process when argv is empty, which
the `indexPanic` branch models; otherwise the first entry is the
program and the whole list is the argument vector. -/
def Command.exec (os : OS) (c : Command) : ExecOutcome :=
  match c.argv[0]? with
  | none => ExecOutcome.indexPanic
  | some p => execvp os p c.argv

/-- State-passing view of `Command::exec`, which takes `&mut self` in
the source: its result together with the builder state after the call.
The body only reads argv (it passes references to `execvp`), so the
post-state is the pre-state. -/
def Command.execMut (os : OS) (c : Command) : ExecOutcome × Command :=
  (Command.exec os c, c)

/-- Commands reachable through the builder surface starting from
`Command.new p`: the exposed operations are only `arg` and `args`. -/
inductive BuiltFrom (p : List Nat) : Command → Prop where
  | new : BuiltFrom p (Command.new p)
  | arg (c : Command) (a : List Nat) : BuiltFrom p c → BuiltFrom p (c.arg a)
  | args (c : Command) (vs : List (List Nat)) : BuiltFrom p c → BuiltFrom p (c.args vs)

/-- A concrete OS oracle whose primitive always fails with errno 2
(ENOENT), used to instantiate theorems at concrete inputs. -/
def osFail : OS :=
  { execvpRes := fun _ _ => -1, errnoVal := fun _ _ => 2 }

/-- A concrete OS oracle whose primitive returns 0, outside the
documented contract. -/
def osZero : OS :=
  { execvpRes := fun _ _ => 0, errnoVal := fun _ _ => 7 }

/-! Helper lemmas shared by the claim theorems. -/

/-- Marshalling a null-free argument list succeeds and appends exactly
one terminator to each string, preserving order. -/
theorem marshalArgs_clean (args : List (List Nat))
    (h : ∀ a ∈ args, a.contains 0 = false) :
    marshalArgs args = some (args.map fun a => a ++ [0]) := by
  induction args with
  | nil => rfl
  | cons a t ih =>
    have ha : (0 : Nat) ∉ a := by simpa using h a (by simp)
    simp [marshalArgs, cstringNew, ha, ih fun x hx => h x (by simp [hx])]

/-- Marshalling fails when some argument contains a null byte. -/
theorem marshalArgs_dirty (args : List (List Nat))
    (h : ∃ a ∈ args, a.contains 0 = true) :
    marshalArgs args = none := by
  induction args with
  | nil => simp at h
  | cons a t ih =>
    by_cases ha : a.contains 0 = true
    · have ha2 : (0 : Nat) ∈ a := by simpa using ha
      simp [marshalArgs, cstringNew, ha2]
    · have ha' : (0 : Nat) ∉ a := by simpa using ha
      have ht : ∃ x ∈ t, x.contains 0 = true := by
        rcases h with ⟨x, hx, hx0⟩
        rcases List.mem_cons.mp hx with rfl | hxt
        · exact absurd hx0 ha
        · exact ⟨x, hxt, hx0⟩
      simp [marshalArgs, cstringNew, ha', ih ht]

/-- Shared form of the null-byte failure path: whenever the program
name or any argument contains a null byte, `execvp` reports
`NullByteInArgument` without invoking the OS primitive. -/
theorem execvp_hasNull (os : OS) (p : List Nat) (args : List (List Nat))
    (h : p.contains 0 = true ∨ ∃ a ∈ args, a.contains 0 = true) :
    execvp os p args = ExecOutcome.returned Error.NullByteInArgument false := by
  cases hp : p.contains 0 with
  | true =>
    have hp' : (0 : Nat) ∈ p := by simpa using hp
    simp [execvp, execvp_impl, cstringNew, hp']
  | false =>
    have hp' : (0 : Nat) ∉ p := by simpa using hp
    have ha : ∃ a ∈ args, a.contains 0 = true := by
      rcases h with hp2 | ha
      · rw [hp] at hp2; cases hp2
      · exact ha
    simp [execvp, execvp_impl, cstringNew, hp', marshalArgs_dirty args ha]

/-- On all-null-free input, `execvp` reaches the OS primitive with the
marshalled program and pointer array, and classifies its result by
sign. -/
theorem execvp_clean_eq (os : OS) (p : List Nat) (args : List (List Nat))
    (hp : p.contains 0 = false) (ha : ∀ a ∈ args, a.contains 0 = false) :
    execvp os p args =
      if os.execvpRes (p ++ [0]) (argCharptrs (args.map fun a => a ++ [0])) < 0 then
        ExecOutcome.returned
          (Error.Errno (os.errnoVal (p ++ [0]) (argCharptrs (args.map fun a => a ++ [0]))))
          true
      else ExecOutcome.execvpPanic := by
  have hp' : (0 : Nat) ∉ p := by simpa using hp
  simp [execvp, execvp_impl, cstringNew, hp', marshalArgs_clean args ha]

/-- The `execvp` function can only yield a returned error or the abort
branch of its own contract check; the index abort belongs to
`Command.exec` alone. -/
theorem execvp_ne_indexPanic (os : OS) (p : List Nat) (args : List (List Nat)) :
    execvp os p args ≠ ExecOutcome.indexPanic := by
  cases hc : cstringNew p with
  | none => simp [execvp, execvp_impl, hc]
  | some pc =>
    cases hm : marshalArgs args with
    | none => simp [execvp, execvp_impl, hc, hm]
    | some cs =>
      simp only [execvp, execvp_impl, hc, hm]
      split <;> simp

/-- The argument-validation trace stops at (and includes) the first
argument containing a null byte; later arguments are not examined. -/
theorem validatedArgs_firstBad (pre post : List (List Nat)) (bad : List Nat)
    (hpre : ∀ a ∈ pre, a.contains 0 = false) (hbad : bad.contains 0 = true) :
    validatedArgs (pre ++ bad :: post) = pre ++ [bad] := by
  induction pre with
  | nil =>
    have hbad' : (0 : Nat) ∈ bad := by simpa using hbad
    simp [validatedArgs, hbad']
  | cons a t ih =>
    have ha : (0 : Nat) ∉ a := by simpa using hpre a (by simp)
    simp [validatedArgs, ha, ih fun x hx => hpre x (by simp [hx])]

/-- Appending arguments through `Command.args` concatenates them, in
order, after the existing argv. -/
theorem Command.args_argv (c : Command) (vs : List (List Nat)) :
    (c.args vs).argv = c.argv ++ vs := by
  induction vs generalizing c with
  | nil => simp [Command.args]
  | cons v t ih =>
    show ((c.arg v).args t).argv = c.argv ++ v :: t
    rw [ih (c.arg v)]
    simp [Command.arg]

/-- Every command reachable through the builder surface keeps the
program name given to `Command.new` as the head of argv. -/
theorem builtFrom_argv (p : List Nat) (c : Command) (h : BuiltFrom p c) :
    ∃ rest, c.argv = p :: rest := by
  induction h with
  | new => exact ⟨[], rfl⟩
  | arg c a _ ih =>
    rcases ih with ⟨r, hr⟩
    exact ⟨r ++ [a], by simp [Command.arg, hr]⟩
  | args c vs _ ih =>
    rcases ih with ⟨r, hr⟩
    exact ⟨r ++ vs, by simp [Command.args_argv, hr]⟩

/-! Claim theorems. -/

/-- C1: for every input where some string (the program name or any
argument) contains a null byte in its interior, `execvp` returns the
`NullByteInArgument` error and the OS process-replacement primitive is
never invoked. -/
theorem execvp_interior_null (os : OS) (p : List Nat) (args : List (List Nat))
    (h : p.contains 0 = true ∨ ∃ a ∈ args, a.contains 0 = true) :
    execvp os p args = ExecOutcome.returned Error.NullByteInArgument false :=
  execvp_hasNull os p args h

/-- Witness for C1 at a concrete input: an argument with an interior
null byte makes `execvp` return `NullByteInArgument` with no OS call. -/
theorem execvp_interior_null_witness :
    execvp osFail [111, 107] [[98, 0, 97]]
      = ExecOutcome.returned Error.NullByteInArgument false :=
  execvp_interior_null osFail [111, 107] [[98, 0, 97]]
    (Or.inr ⟨[98, 0, 97], by decide⟩)

/-- C2: when no string contains an interior null byte, a returning
`execvp` yields the `Errno` variant carrying the OS error state
captured right after the primitive returned, and never
`NullByteInArgument`. -/
theorem execvp_clean_errno_only (os : OS) (p : List Nat) (args : List (List Nat))
    (hp : p.contains 0 = false) (ha : ∀ a ∈ args, a.contains 0 = false) :
    (∀ b, execvp os p args ≠ ExecOutcome.returned Error.NullByteInArgument b) ∧
    (∀ e b, execvp os p args = ExecOutcome.returned e b →
      e = Error.Errno (os.errnoVal (p ++ [0]) (argCharptrs (args.map fun a => a ++ [0]))) ∧
      b = true) := by
  have hq := execvp_clean_eq os p args hp ha
  constructor
  · intro b hcontra
    rw [hq] at hcontra
    split at hcontra <;> simp at hcontra
  · intro e b heq
    rw [hq] at heq
    split at heq
    · injection heq with h1 h2
      exact ⟨h1.symm, h2.symm⟩
    · cases heq

/-- Witness for C2 at a concrete input: with null-free strings and a
failing OS, the result is never `NullByteInArgument`. -/
theorem execvp_clean_errno_only_witness :
    execvp osFail [111, 107] [[97]]
      ≠ ExecOutcome.returned Error.NullByteInArgument true :=
  (execvp_clean_errno_only osFail [111, 107] [[97]] (by decide)
    (by decide)).1 true

/-- C3: for N null-free argument strings, marshalling succeeds, the
pointer array has exactly N + 1 entries, its last entry is the null
sentinel, and entry i points at a buffer holding exactly the i-th
input string followed by one zero terminator, in input order. -/
theorem marshal_roundtrip (args : List (List Nat))
    (h : ∀ a ∈ args, a.contains 0 = false) :
    marshalArgs args = some (args.map fun a => a ++ [0]) ∧
    (argCharptrs (args.map fun a => a ++ [0])).length = args.length + 1 ∧
    (argCharptrs (args.map fun a => a ++ [0])).getLast? = some none ∧
    ∀ i (hi : i < args.length),
      (argCharptrs (args.map fun a => a ++ [0]))[i]? = some (some (args[i] ++ [0])) := by
  refine ⟨marshalArgs_clean args h, by simp [argCharptrs], ?_, ?_⟩
  · simp [argCharptrs]
  · intro i hi
    have hi' : i < (List.map (fun a => a ++ [0]) args).length := by simpa using hi
    have hmap : i < ((List.map (fun a => a ++ [0]) args).map some).length := by
      simpa using hi
    rw [argCharptrs, List.getElem?_append, if_pos hmap]
    simp [List.getElem?_map, List.getElem?_eq_getElem hi]

/-- Witness for C3 at a concrete input: two arguments marshal to two
terminated buffers. -/
theorem marshal_roundtrip_witness :
    marshalArgs [[97], [98, 99]] = some [[97, 0], [98, 99, 0]] :=
  (marshal_roundtrip [[97], [98, 99]] (by decide)).1

/-- C4: validation is order-dependent and short-circuits.  When the
program name contains a null byte the trace stops at the program name
alone (arguments go unexamined); otherwise the trace runs through the
null-free argument prefix and stops at the first offending argument;
either way `execvp` reports `NullByteInArgument` with no OS call. -/
theorem execvp_validation_order (os : OS) (p : List Nat)
    (args pre post : List (List Nat)) (bad : List Nat)
    (hargs : args = pre ++ bad :: post)
    (hpre : ∀ a ∈ pre, a.contains 0 = false)
    (hbad : bad.contains 0 = true) :
    (p.contains 0 = true → validatedStrings p args = [p]) ∧
    (p.contains 0 = false → validatedStrings p args = (p :: pre) ++ [bad]) ∧
    execvp os p args = ExecOutcome.returned Error.NullByteInArgument false := by
  refine ⟨?_, ?_, ?_⟩
  · intro hp
    have hp' : (0 : Nat) ∈ p := by simpa using hp
    simp [validatedStrings, hp']
  · intro hp
    have hp' : (0 : Nat) ∉ p := by simpa using hp
    simp [validatedStrings, hp', hargs,
      validatedArgs_firstBad pre post bad hpre hbad]
  · exact execvp_hasNull os p args (Or.inr ⟨bad, by simp [hargs], hbad⟩)

/-- Witness for C4 at a concrete input where both the program name and
the argument contain a null byte: the trace contains the program name
alone, so the failure corresponds to the program name. -/
theorem execvp_validation_order_witness :
    validatedStrings [0] [[0, 1]] = [[0]] ∧
    execvp osFail [0] [[0, 1]]
      = ExecOutcome.returned Error.NullByteInArgument false := by
  have h := execvp_validation_order osFail [0] [[0, 1]] [] [] [0, 1] rfl
    (by simp) (by decide)
  exact ⟨h.1 (by decide), h.2.2⟩

/-- C5: if the OS primitive returns a non-negative value, outside its
documented failure contract, `execvp` hits the abort branch instead of
returning any error value. -/
theorem execvp_nonneg_panics (os : OS) (p : List Nat) (args : List (List Nat))
    (hp : p.contains 0 = false) (ha : ∀ a ∈ args, a.contains 0 = false)
    (hres : 0 ≤ os.execvpRes (p ++ [0]) (argCharptrs (args.map fun a => a ++ [0]))) :
    execvp os p args = ExecOutcome.execvpPanic := by
  rw [execvp_clean_eq os p args hp ha, if_neg (not_lt.mpr hres)]

/-- Witness for C5 at a concrete input: an OS oracle returning 0 makes
`execvp` abort. -/
theorem execvp_nonneg_panics_witness :
    execvp osZero [101] [[101]] = ExecOutcome.execvpPanic :=
  execvp_nonneg_panics osZero [101] [[101]] (by decide) (by decide) (by decide)

/-- C6: chaining `arg` twice builds the same command as one `args`
call, and in general `args vs` appends the elements of vs in order,
the same as folding `arg` over them. -/
theorem builder_arg_args_agree (x a b : List Nat) (c : Command)
    (vs : List (List Nat)) :
    ((Command.new x).arg a).arg b = (Command.new x).args [a, b] ∧
    (c.args vs).argv = c.argv ++ vs ∧
    c.args vs = vs.foldl Command.arg c :=
  ⟨rfl, Command.args_argv c vs, rfl⟩

/-- C7: on any command built from `Command.new p` through the builder
surface, `exec` invokes the marshal-and-call pipeline with the first
accumulated entry (the program name p) as the program and the whole
accumulated list as the argument vector. -/
theorem exec_uses_head_and_whole_argv (os : OS) (p : List Nat) (c : Command)
    (h : BuiltFrom p c) :
    c.argv[0]? = some p ∧ Command.exec os c = execvp os p c.argv := by
  rcases builtFrom_argv p c h with ⟨r, hr⟩
  refine ⟨by simp [hr], ?_⟩
  simp [Command.exec, hr]

/-- Witness for C7 at a concrete input: a freshly built command execs
its program with argv equal to the singleton list. -/
theorem exec_uses_head_and_whole_argv_witness :
    Command.exec osFail (Command.new [101]) = execvp osFail [101] [[101]] :=
  (exec_uses_head_and_whole_argv osFail [101] (Command.new [101])
    BuiltFrom.new).2

/-- Counterexample for C8 as stated: the accumulated list is not
consumed by `exec` (the source's exec borrows self mutably and only
reads argv), so after one invocation the list is still available
unchanged and a second invocation proceeds identically. -/
theorem exec_does_not_consume_counterexample :
    (Command.execMut osFail (Command.new [101])).2 = Command.new [101] ∧
    Command.exec osFail ((Command.execMut osFail (Command.new [101])).2)
      = ExecOutcome.returned (Error.Errno 2) true :=
  ⟨rfl, by decide⟩

/-- C8 (amended): the builder state is a single append-only list (arg
and args only concatenate onto argv), and `exec` borrows the list
without consuming or modifying it, leaving the builder usable, with
identical behaviour, after a failed exec. -/
theorem builder_append_only_exec_borrows (os : OS) (c : Command) (a : List Nat)
    (vs : List (List Nat)) :
    (c.arg a).argv = c.argv ++ [a] ∧
    (c.args vs).argv = c.argv ++ vs ∧
    (Command.execMut os c).2 = c ∧
    Command.exec os ((Command.execMut os c).2) = Command.exec os c :=
  ⟨rfl, Command.args_argv c vs, rfl, rfl⟩

/-- C9: with zero argument strings, marshalling succeeds and the OS
primitive receives the one-element pointer array holding only the null
sentinel; no error arises at this layer from the absence of
arguments. -/
theorem execvp_empty_args (os : OS) (p : List Nat)
    (hp : p.contains 0 = false) :
    marshalArgs [] = some [] ∧
    argCharptrs [] = [none] ∧
    (argCharptrs []).length = 1 ∧
    (os.execvpRes (p ++ [0]) [none] < 0 →
      execvp os p [] =
        ExecOutcome.returned (Error.Errno (os.errnoVal (p ++ [0]) [none])) true) ∧
    (0 ≤ os.execvpRes (p ++ [0]) [none] →
      execvp os p [] = ExecOutcome.execvpPanic) := by
  have hq := execvp_clean_eq os p [] hp (by simp)
  simp only [List.map_nil] at hq
  refine ⟨rfl, rfl, rfl, ?_, ?_⟩
  · intro hres
    rw [hq]
    simp [argCharptrs, hres]
  · intro hres
    rw [hq]
    simp [argCharptrs, not_lt.mpr hres]

/-- Witness for C9 at a concrete input: a null-free program with no
arguments reaches the OS and reports its errno. -/
theorem execvp_empty_args_witness :
    execvp osFail [101] [] = ExecOutcome.returned (Error.Errno 2) true :=
  (execvp_empty_args osFail [101] (by decide)).2.2.2.1 (by decide)

/-- C10: every command reachable through the builder surface has a
non-empty argv whose head is the program name, so the indexing in
`exec` cannot abort, and `exec` leaves the accumulated list unchanged,
keeping the builder usable afterwards. -/
theorem builder_argv_nonempty_exec_safe (os : OS) (p : List Nat) (c : Command)
    (h : BuiltFrom p c) :
    c.argv ≠ [] ∧
    c.argv[0]? = some p ∧
    Command.exec os c ≠ ExecOutcome.indexPanic ∧
    (Command.execMut os c).2 = c := by
  rcases builtFrom_argv p c h with ⟨r, hr⟩
  refine ⟨by simp [hr], by simp [hr], ?_, rfl⟩
  have hx : Command.exec os c = execvp os p c.argv := by
    simp [Command.exec, hr]
  rw [hx]
  exact execvp_ne_indexPanic os p c.argv

/-- Witness for C10 at a concrete input: a built command's exec never
hits the index abort. -/
theorem builder_argv_nonempty_exec_safe_witness :
    Command.exec osFail ((Command.new [101]).arg [102])
      ≠ ExecOutcome.indexPanic :=
  (builder_argv_nonempty_exec_safe osFail [101]
    ((Command.new [101]).arg [102])
    (BuiltFrom.arg (Command.new [101]) [102] BuiltFrom.new)).2.2.1

end ExecRs
